import Mathlib

/-!
Shallow embedding of the Finance Manager CLI, version `src/finance_v2_6.cpp`,
together with proofs and refutations of the specified properties.

Modelling conventions:
* `double` is modelled as `ℚ` (exact arithmetic on the rationals).
* `chrono::system_clock::time_point` values are always produced by `mktime`
  on a `tm` holding a calendar date at local midnight, so they are modelled
  as a `Date` record `(year, month, day)`; `time_t` comparison coincides
  with lexicographic comparison of those triples.
* `std::map` is modelled as an association list with unique keys;
  `map::operator[]` becomes lookup-or-insert on that list.
* File I/O is modelled by passing the list of lines of the store file
  (`none` when the file cannot be opened).
-/

set_option maxRecDepth 1200

namespace Finance

/- The Batteries rational-number operations are `@[irreducible]`, which
blocks `decide` on concrete account computations; this development only
ever evaluates them on concrete literals. -/
attribute [local semireducible] Rat.add Rat.mul Rat.inv Rat.sub Rat.ofScientific

/-! ## Section 1: dates (`finance_v2_6.cpp` lines 96-241) -/

/-- A calendar date at local midnight, standing for a `chrono_tp`. -/
structure Date where
  year : Int
  month : Int
  day : Int
deriving DecidableEq, Repr

/-- `time_t` order on midnight time points = lexicographic order on dates. -/
def Date.leb (a b : Date) : Bool :=
  decide (a.year < b.year ∨ (a.year = b.year ∧
    (a.month < b.month ∨ (a.month = b.month ∧ a.day ≤ b.day))))

/-- Strict `time_t` order on midnight time points. -/
def Date.ltb (a b : Date) : Bool :=
  decide (a.year < b.year ∨ (a.year = b.year ∧
    (a.month < b.month ∨ (a.month = b.month ∧ a.day < b.day))))

/-- `daysInMonth` (lines 153-160). -/
def daysInMonth (year month : Int) : Int :=
  if month = 2 then
    -- leap = (year % 4 == 0 && (year % 100 != 0 || year % 400 == 0))
    if year.tmod 4 = 0 ∧ (year.tmod 100 ≠ 0 ∨ year.tmod 400 = 0) then 29 else 28
  else
    -- mdays[] = {31,28,31,30,31,30,31,31,30,31,30,31}
    if month = 4 ∨ month = 6 ∨ month = 9 ∨ month = 11 then 30 else 31

/-- One day forward, as `mktime` normalizes `tm_mday + 1`. -/
def Date.succDay (d : Date) : Date :=
  if d.day < daysInMonth d.year d.month then { d with day := d.day + 1 }
  else if d.month < 12 then { year := d.year, month := d.month + 1, day := 1 }
  else { year := d.year + 1, month := 1, day := 1 }

/-- `addDays` (lines 163-170): `mktime` normalization of `tm_mday += days`.
The program only calls this with the positive interval of an `EveryXDays`
schedule, so iterated day-increments model it exactly. -/
def addDays (d : Date) (days : Int) : Date :=
  Date.succDay^[days.toNat] d

/-- `addMonths` (lines 174-196).  The C source computes `totalMonths / 12`
and `totalMonths % 12` with C (truncating) division, then fixes up a
non-positive month, which `Int.tdiv` / `Int.tmod` transliterate. -/
def addMonths (tp : Date) (months : Int) : Date :=
  let totalMonths := tp.month - 1 + months
  let newYear0 := tp.year + totalMonths.tdiv 12
  let newMonth0 := totalMonths.tmod 12 + 1
  let newYear := if newMonth0 ≤ 0 then newYear0 - 1 else newYear0
  let newMonth := if newMonth0 ≤ 0 then newMonth0 + 12 else newMonth0
  let last := daysInMonth newYear newMonth
  { year := newYear, month := newMonth, day := min tp.day last }

/-- `nextMonthlyOn` (lines 200-225). -/
def nextMonthlyOn (fromD : Date) (day : Int) : Date :=
  if fromD.day < day then
    let last := daysInMonth fromD.year fromD.month
    { fromD with day := min day last }
  else
    let year := if fromD.month + 1 > 12 then fromD.year + 1 else fromD.year
    let month := if fromD.month + 1 > 12 then 1 else fromD.month + 1
    let last := daysInMonth year month
    { year := year, month := month, day := min day last }

/-- `monthsBetweenInclusive` (lines 230-241). -/
def monthsBetweenInclusive (start fin : Date) : Int :=
  if Date.ltb fin start then 0
  else
    let months := (fin.year - start.year) * 12 + (fin.month - start.month)
    let months := if fin.day ≥ start.day then months + 1 else months
    max 0 months

/-! ## Section 2: character and string helpers (lines 243-374) -/

/-- C `isspace` in the default locale. -/
def isspaceC (c : Char) : Bool :=
  c = ' ' ∨ c = '\t' ∨ c = '\n' ∨ c = '\x0b' ∨ c = '\x0c' ∨ c = '\r'

/-- C `tolower` on ASCII. -/
def tolowerC (c : Char) : Char :=
  if 'A' ≤ c ∧ c ≤ 'Z' then Char.ofNat (c.toNat + 32) else c

/-- C `isalnum` on ASCII. -/
def isalnumC (c : Char) : Bool :=
  ('0' ≤ c ∧ c ≤ '9') ∨ ('a' ≤ c ∧ c ≤ 'z') ∨ ('A' ≤ c ∧ c ≤ 'Z')

/-- `escapeForSave` (lines 255-265), character level. -/
def escapeChars : List Char → List Char
  | [] => []
  | c :: rest =>
    (if c = '\\' then ['\\', '\\']
     else if c = '|' then ['\\', '|']
     else if c = '\n' then ['\\', 'n']
     else [c]) ++ escapeChars rest

/-- `escapeForSave` (lines 255-265). -/
def escapeForSave (s : String) : String := ⟨escapeChars s.data⟩

/-- `unescapeLoaded` (lines 269-281), character level: a backslash with a
following character consumes both (`n` giving a newline), a trailing lone
backslash is copied through. -/
def unescapeChars : List Char → List Char
  | '\\' :: n :: rest => (if n = 'n' then '\n' else n) :: unescapeChars rest
  | c :: rest => c :: unescapeChars rest
  | [] => []

/-- `unescapeLoaded` (lines 269-281). -/
def unescapeLoaded (s : String) : String := ⟨unescapeChars s.data⟩

/-- The scanning loop of `splitEscaped` (lines 285-301): split on unescaped
pipes, dropping backslashes and copying the following character verbatim. -/
def splitEscapedScan : List Char → Bool → List Char → List (List Char)
  | [], _, cur => [cur]
  | c :: rest, esc, cur =>
    if esc then splitEscapedScan rest false (cur ++ [c])
    else if c = '\\' then splitEscapedScan rest true cur
    else if c = '|' then cur :: splitEscapedScan rest false []
    else splitEscapedScan rest false (cur ++ [c])

/-- `splitEscaped` (lines 285-304): scan, then `unescapeLoaded` every part. -/
def splitEscaped (s : String) : List String :=
  (splitEscapedScan s.data false []).map (fun p => unescapeLoaded ⟨p⟩)

/-- The raw key/value split used for the SETTINGS section of the store
(lines 746-756): the same scan as `splitEscaped` but without the final
`unescapeLoaded` pass. -/
def splitRaw (s : String) : List String :=
  (splitEscapedScan s.data false []).map (fun p => (⟨p⟩ : String))

/-- Joining fields with the `|` delimiter after escaping, exactly as every
record writer in `saveToFile` does (lines 664-693); this is the
`join_with_escaping` of the specification's round-trip law. -/
def joinEscaped : List String → String
  | [] => ""
  | [f] => escapeForSave f
  | f :: rest => escapeForSave f ++ "|" ++ joinEscaped rest

/-- `normalizeKey` (lines 310-319). -/
def normalizeKey (s : String) : String :=
  let t := (s.data.dropWhile isspaceC).reverse.dropWhile isspaceC |>.reverse
  let out := t.map tolowerC
  if out.isEmpty then "other" else ⟨out⟩

/-- The space-collapsing pass of `sanitizeDisplayName` (lines 332-342). -/
def collapseSpaces : List Char → Bool → List Char
  | [], _ => []
  | c :: rest, lastSpace =>
    if isspaceC c then
      if lastSpace then collapseSpaces rest true
      else ' ' :: collapseSpaces rest true
    else c :: collapseSpaces rest false

/-- `sanitizeDisplayName` (lines 325-348). -/
def sanitizeDisplayName (s : String) : String :=
  let tmp := s.data.filter (fun c => isalnumC c ∨ isspaceC c)
  let out := collapseSpaces tmp false
  let out := (out.dropWhile isspaceC).reverse.dropWhile isspaceC |>.reverse
  if out.isEmpty then "Category" else ⟨out⟩

/-! ## Section 3: association-list model of `std::map` -/

/-- `std::map<string, α>`, as an association list with unique keys. -/
abbrev AMap (α : Type) := List (String × α)

/-- Key lookup (`map::find` / `map::count`). -/
def alookup {α : Type} : AMap α → String → Option α
  | [], _ => none
  | (k, v) :: rest, key => if k = key then some v else alookup rest key

/-- `map.find(k) != map.end()`. -/
def acontains {α : Type} (m : AMap α) (k : String) : Bool :=
  (alookup m k).isSome

/-- `map[k] = v` (insert or overwrite). -/
def aset {α : Type} : AMap α → String → α → AMap α
  | [], k, v => [(k, v)]
  | (k', v') :: rest, k, v =>
    if k' = k then (k', v) :: rest else (k', v') :: aset rest k v

/-- Lookup with a default value. -/
def agetD {α : Type} (m : AMap α) (k : String) (d : α) : α :=
  (alookup m k).getD d

/-- `map[k] += x` on a `map<string,double>`: `operator[]` default-inserts
`0.0` when the key is absent, then the addition updates it. -/
def aadd (m : AMap ℚ) (k : String) (x : ℚ) : AMap ℚ :=
  aset m k (agetD m k 0 + x)

/-- `map[k]` read on a `map<string,string>` default-inserts `""` when the
key is absent (as in `allocateAmount`, line 476). -/
def atouch (m : AMap String) (k : String) : AMap String :=
  if acontains m k then m else aset m k ""

/-! ## Section 4: core data structures (lines 29-73, 385-415) -/

/-- `Transaction` (lines 35-40). -/
structure Transaction where
  date : Date
  amount : ℚ
  category : String
  note : String
deriving DecidableEq, Repr

/-- `ScheduleType` (line 43). -/
inductive ScheduleType where
  | EveryXDays
  | MonthlyDay
deriving DecidableEq, Repr

/-- `Schedule` (lines 46-54). -/
structure Schedule where
  type : ScheduleType
  param : Int
  amount : ℚ
  note : String
  autoAllocate : Bool
  nextDate : Date
  category : String
deriving DecidableEq, Repr

/-- `InterestEntry` (lines 57-63). -/
structure InterestEntry where
  categoryNormalized : String
  ratePct : ℚ
  monthly : Bool
  startDate : Date
  lastAppliedDate : Date
deriving DecidableEq, Repr

/-- `Settings` (lines 66-70). -/
structure Settings where
  autoSave : Bool := false
  autoProcessOnStartup : Bool := false
  language : String := "EN"
deriving DecidableEq, Repr

/-- `Account` (lines 385-400). -/
structure Account where
  balance : ℚ := 0
  txs : List Transaction := []
  schedules : List Schedule := []
  allocationPct : AMap ℚ := []
  categoryBalances : AMap ℚ := []
  displayNames : AMap String := []
  interestMap : AMap InterestEntry := []
  settings : Settings := {}
deriving DecidableEq, Repr

/-- The `Account` constructor (lines 403-415); the three maps are listed in
`std::map` (sorted-key) iteration order. -/
def defaultAccount : Account where
  balance := 0
  allocationPct :=
    [("emergency", 20), ("entertainment", 10), ("other", 50), ("saving", 20)]
  categoryBalances :=
    [("emergency", 0), ("entertainment", 0), ("other", 0), ("saving", 0)]
  displayNames :=
    [("emergency", "Emergency"), ("entertainment", "Entertainment"),
     ("other", "Other"), ("saving", "Saving")]

/-! ## Section 5: account operations (lines 417-603) -/

/-- `Account::ensureCategoryExists` (lines 420-426). -/
def ensureCategoryExists (acc : Account) (displayRaw : String) : Account :=
  let display := sanitizeDisplayName displayRaw
  let nk := normalizeKey display
  { acc with
    displayNames :=
      if acontains acc.displayNames nk then acc.displayNames
      else aset acc.displayNames nk display
    categoryBalances :=
      if acontains acc.categoryBalances nk then acc.categoryBalances
      else aset acc.categoryBalances nk 0
    allocationPct :=
      if acontains acc.allocationPct nk then acc.allocationPct
      else aset acc.allocationPct nk 0 }

/-- `Account::addManualTransaction` (lines 431-441). -/
def addManualTransaction (acc : Account) (date : Date) (amount : ℚ)
    (categoryRaw note : String) : Account :=
  let catDisplay := if categoryRaw = "" then "Other" else sanitizeDisplayName categoryRaw
  let nk := normalizeKey catDisplay
  let dn :=
    if acontains acc.displayNames nk then acc.displayNames
    else aset acc.displayNames nk catDisplay
  let t : Transaction :=
    { date := date, amount := amount, category := agetD dn nk "", note := note }
  { acc with
    displayNames := dn
    txs := acc.txs ++ [t]
    balance := acc.balance + amount
    categoryBalances := aadd acc.categoryBalances nk amount }

/-- One iteration of the rebuild loop of `Account::setAllocation`
(lines 449-455). -/
def setAllocationStep (st : Account) (p : String × ℚ) : Account :=
  let dk := sanitizeDisplayName p.1
  let nk := normalizeKey dk
  { st with
    allocationPct := aset st.allocationPct nk p.2
    displayNames :=
      if acontains st.displayNames nk then st.displayNames
      else aset st.displayNames nk dk
    categoryBalances :=
      if acontains st.categoryBalances nk then st.categoryBalances
      else aset st.categoryBalances nk 0 }

/-- `Account::setAllocation` (lines 447-456): clear `allocationPct`, then
rebuild it from the given map. -/
def setAllocation (acc : Account) (newAlloc : AMap ℚ) : Account :=
  newAlloc.foldl setAllocationStep { acc with allocationPct := [] }

/-- `totalPct` as accumulated at lines 463-464. -/
def totalPctOf (alloc : AMap ℚ) : ℚ :=
  (alloc.map (·.2)).sum

/-- One iteration of the per-category split loop of `Account::allocateAmount`
(lines 473-479).  `totalPct` is fixed before the loop starts. -/
def allocStep (date : Date) (amount : ℚ) (note : String) (totalPct : ℚ)
    (st : Account) (p : String × ℚ) : Account :=
  let share := amount * (p.2 / totalPct)
  let dn := atouch st.displayNames p.1
  let catDisplay := if agetD dn p.1 "" = "" then p.1 else agetD dn p.1 ""
  { st with
    categoryBalances := aadd st.categoryBalances p.1 share
    displayNames := dn
    txs := st.txs ++
      [{ date := date, amount := share, category := catDisplay,
         note := note ++ " (auto alloc)" }]
    balance := st.balance + share }

/-- `Account::allocateAmount` (lines 462-480). -/
def allocateAmount (acc : Account) (date : Date) (amount : ℚ) (note : String) :
    Account :=
  let totalPct := totalPctOf acc.allocationPct
  if totalPct ≤ 1 / 1000000 then
    let nk := normalizeKey "Other"
    let dn :=
      if acontains acc.displayNames nk then acc.displayNames
      else aset acc.displayNames nk "Other"
    { acc with
      displayNames := dn
      categoryBalances := aadd acc.categoryBalances nk amount
      txs := acc.txs ++
        [{ date := date, amount := amount, category := agetD dn nk "",
           note := note ++ " (auto alloc fallback)" }]
      balance := acc.balance + amount }
  else
    acc.allocationPct.foldl (allocStep date amount note totalPct) acc

/-- The parameter validation gate of `Account::processSchedulesUpTo`
(lines 498-505). -/
def schedValid (s : Schedule) : Bool :=
  match s.type with
  | .EveryXDays => decide (0 < s.param)
  | .MonthlyDay => decide (1 ≤ s.param ∧ s.param ≤ 31)

/-- The body of one firing (lines 509-515). -/
def schedFire (acc : Account) (s : Schedule) : Account :=
  if s.autoAllocate ∧ 0 < s.amount then
    allocateAmount acc s.nextDate s.amount ("Scheduled: " ++ s.note)
  else
    addManualTransaction acc s.nextDate s.amount
      (if s.category = "" then "Other" else s.category)
      ("Scheduled: " ++ s.note)

/-- Advancing `s.nextDate` (lines 517-518). -/
def schedAdvance (s : Schedule) : Date :=
  match s.type with
  | .EveryXDays => addDays s.nextDate s.param
  | .MonthlyDay => nextMonthlyOn s.nextDate s.param

/-- The guarded `while` loop of `Account::processSchedulesUpTo`
(lines 506-520), with the remaining guard budget as fuel (the C counter
starts at 0 and the loop stops at 10000). -/
def schedLoop (upTo : Date) : Nat → Schedule → Account → Schedule × Account
  | 0, s, acc => (s, acc)
  | fuel + 1, s, acc =>
    if Date.leb s.nextDate upTo then
      let acc' := schedFire acc s
      let s' := { s with nextDate := schedAdvance s }
      schedLoop upTo fuel s' acc'
    else (s, acc)

/-- One schedule of the `for (auto &s : schedules)` loop (lines 497-524). -/
def schedStep (upTo : Date) (st : List Schedule × Account) (s : Schedule) :
    List Schedule × Account :=
  if schedValid s then
    let r := schedLoop upTo 10000 s st.2
    (st.1 ++ [r.1], r.2)
  else (st.1 ++ [s], st.2)

/-- `Account::processSchedulesUpTo` (lines 496-525): every schedule in turn
is validated and run through the guarded loop, mutating the account and the
schedule's own `nextDate`. -/
def processSchedulesUpTo (acc : Account) (upTo : Date) : Account :=
  let result := acc.schedules.foldl (schedStep upTo) ([], acc)
  { result.2 with schedules := result.1 }

/-- The balance of category `nk` in the working transaction list up to
`applyDate` inclusive (lines 571-578). -/
def catBalanceUpTo (wtxs : List Transaction) (nk : String) (applyDate : Date) :
    ℚ :=
  ((wtxs.filter (fun t =>
    decide (normalizeKey t.category = nk) && Date.leb t.date applyDate)).map
      (·.amount)).sum

/-- The state threaded through interest application: the real transaction
log, the working transaction list, the category balances and the total
balance. -/
abbrev InterestState := List Transaction × List Transaction × AMap ℚ × ℚ

/-- One month of one interest rule (lines 567-596): compute the compounding
balance of the category as of `addMonths fromDate m` and, when it is
positive and yields non-zero interest, post the interest transaction to
both the real log and the working list. -/
def interestMonthStep (dn : AMap String) (fromDate : Date) (monthlyRate : ℚ)
    (nk : String) (noteStr : String) (st : InterestState) (m : Nat) :
    InterestState :=
  let (txs, wtxs, cb, bal) := st
  let applyDate := addMonths fromDate (m : Int)
  let b := catBalanceUpTo wtxs nk applyDate
  if b ≤ 0 then st
  else
    let interest := b * monthlyRate
    if interest = 0 then st
    else
      let display := agetD dn nk nk
      let itx : Transaction :=
        { date := applyDate, amount := interest, category := display,
          note := noteStr }
      (txs ++ [itx], wtxs ++ [itx], aadd cb nk interest, bal + interest)

/-- One interest rule (lines 549-602): skip a rule that starts after the
target or has no month to apply, otherwise run the month loop and advance
`lastAppliedDate` (clamped to `upTo`). -/
def interestRuleStep (dn : AMap String) (upTo : Date) (st : InterestState)
    (ie : InterestEntry) : InterestState × InterestEntry :=
  if Date.ltb upTo ie.startDate then (st, ie)
  else
    let fromDate :=
      if Date.ltb ie.lastAppliedDate ie.startDate then ie.startDate
      else ie.lastAppliedDate
    let months := monthsBetweenInclusive fromDate upTo
    if months ≤ 0 then (st, ie)
    else
      let monthlyRate :=
        if ie.monthly then ie.ratePct / 100 else ie.ratePct / 100 / 12
      let noteStr := "Interest (" ++
        (if ie.monthly then "monthly" else "annual/converted to monthly") ++ ")"
      let st' := (List.range months.toNat).foldl
        (interestMonthStep dn fromDate monthlyRate ie.categoryNormalized noteStr)
        st
      let la := addMonths fromDate months
      let la' := if Date.ltb upTo la then upTo else la
      (st', { ie with lastAppliedDate := la' })

/-- The `for (auto &kv : interestMap)` loop of `applyInterestUpTo`,
rebuilding the entry map while threading the interest state. -/
def interestRulesLoop (dn : AMap String) (upTo : Date) :
    AMap InterestEntry → InterestState → AMap InterestEntry × InterestState
  | [], st => ([], st)
  | (k, ie) :: rest, st =>
    let r := interestRuleStep dn upTo st ie
    let rr := interestRulesLoop dn upTo rest r.1
    ((k, r.2) :: rr.1, rr.2)

/-- `Account::applyInterestUpTo` (lines 542-603). -/
def applyInterestUpTo (acc : Account) (upTo : Date) : Account :=
  if acc.interestMap.isEmpty then acc
  else
    let r := interestRulesLoop acc.displayNames upTo acc.interestMap
      (acc.txs, acc.txs, acc.categoryBalances, acc.balance)
    { acc with
      interestMap := r.1
      txs := r.2.1
      categoryBalances := r.2.2.2.1
      balance := r.2.2.2.2 }

/-! ## Section 6: persistence (lines 699-878)

`stod` / `stoi` are modelled on the decimal shapes the store writer emits
(optional sign, digits, optional fractional digits); like the C functions
they read a numeric prefix and ignore what follows, and fail (throw) when
no digit can be read.  `tryParseDate` is modelled as the strict
`YYYY-MM-DD` parse the repository documents for the save format. -/

/-- Digit run to a natural number. -/
def digitsToNat : List Char → Nat → Nat
  | [], acc => acc
  | c :: rest, acc => digitsToNat rest (acc * 10 + (c.toNat - '0'.toNat))

/-- `std::stod` on the store's decimal numbers. -/
def parseNum (s : String) : Option ℚ :=
  let p := fun (cs : List Char) (sign : ℚ) =>
    let intPart := cs.takeWhile Char.isDigit
    let rest := cs.dropWhile Char.isDigit
    match rest with
    | '.' :: frac0 =>
      let fracPart := frac0.takeWhile Char.isDigit
      if intPart.isEmpty ∧ fracPart.isEmpty then none
      else some (sign * ((digitsToNat intPart 0 : ℚ) +
        (digitsToNat fracPart 0 : ℚ) / (10 ^ fracPart.length)))
    | _ =>
      if intPart.isEmpty then none
      else some (sign * (digitsToNat intPart 0 : ℚ))
  match s.data with
  | '-' :: cs => p cs (-1)
  | '+' :: cs => p cs 1
  | cs => p cs 1

/-- `std::stoi` on the store's integers. -/
def parseInt (s : String) : Option Int :=
  let p := fun (cs : List Char) (sign : Int) =>
    let intPart := cs.takeWhile Char.isDigit
    if intPart.isEmpty then none
    else some (sign * (digitsToNat intPart 0 : Int))
  match s.data with
  | '-' :: cs => p cs (-1)
  | '+' :: cs => p cs 1
  | cs => p cs 1

/-- `tryParseDate` (lines 119-131): strict `YYYY-MM-DD` with components in
calendar range (the `mktime` normalization of out-of-range fields is never
exercised by well-formed stores and is not modelled). -/
def tryParseDate (s : String) : Option Date :=
  match s.data with
  | [y1, y2, y3, y4, '-', m1, m2, '-', d1, d2] =>
    if ([y1, y2, y3, y4, m1, m2, d1, d2].all Char.isDigit) then
      let y : Int := digitsToNat [y1, y2, y3, y4] 0
      let m : Int := digitsToNat [m1, m2] 0
      let d : Int := digitsToNat [d1, d2] 0
      if 1 ≤ m ∧ m ≤ 12 ∧ 1 ≤ d ∧ d ≤ daysInMonth y m then
        some { year := y, month := m, day := d }
      else none
    else none
  | _ => none

/-- `line.rfind("BALANCE ", 0) == 0`, i.e. a prefix test, on the char
level (C `std::string` is byte-indexed; the store is ASCII). -/
def startsWithB (line pre : String) : Bool :=
  decide (line.data.take pre.data.length = pre.data)

/-- `line.substr n` to the end of the line, on the char level. -/
def substrFrom (line : String) (n : Nat) : String :=
  ⟨line.data.drop n⟩

/-- The section marker of the load loop (line 719). -/
inductive StoreSection where
  | NoneSec
  | SettingsSec
  | InterestSec
  | Alloc
  | Cats
  | Scheds
  | Txs
deriving DecidableEq, Repr

/-- The mutable state of the load loop (lines 718-728). -/
structure LoadState where
  sec : StoreSection
  savedBalance : ℚ
  hadSavedBalance : Bool
  acc : Account

/-- Insert a display name only when the key is still unknown, the
`if (displayNames.find(nk) == displayNames.end())` idiom of the loader. -/
def ensureDisplay (dn : AMap String) (nk display : String) : AMap String :=
  if acontains dn nk then dn else aset dn nk display

/-- One line of `Account::loadFromFile`'s read loop (lines 730-841).
`todayD` is the ambient `today()` used when an interest start date fails to
parse. -/
def processLine (todayD : Date) (st : LoadState) (line : String) : LoadState :=
  if line = "SETTINGS" then { st with sec := .SettingsSec }
  else if line = "INTERESTS" then { st with sec := .InterestSec }
  else if line = "ALLOCATIONS" then { st with sec := .Alloc }
  else if line = "CATEGORIES" then { st with sec := .Cats }
  else if line = "SCHEDULES" then { st with sec := .Scheds }
  else if line = "TXS" then { st with sec := .Txs }
  else if startsWithB line "BALANCE " then
    match parseNum (substrFrom line 8) with
    | some v => { st with savedBalance := v, hadSavedBalance := true }
    | none => st
  else
    match st.sec with
    | .NoneSec => st
    | .SettingsSec =>
      match splitRaw line with
      | key :: val :: _ =>
        if key = "AUTO_SAVE" then
          { st with acc := { st.acc with settings :=
              { st.acc.settings with autoSave := val = "1" ∨ val = "true" } } }
        else if key = "AUTO_PROCESS_STARTUP" then
          { st with acc := { st.acc with settings :=
              { st.acc.settings with
                autoProcessOnStartup := val = "1" ∨ val = "true" } } }
        else if key = "LANGUAGE" then
          { st with acc := { st.acc with settings :=
              { st.acc.settings with language := val } } }
        else st
      | _ => st
    | .InterestSec =>
      match splitEscaped line with
      | display :: f1 :: f2 :: f3 :: f4 :: _ =>
        match parseNum f1 with
        | none => st
        | some rate =>
          let monthly := f2 = "1" ∨ f2 = "true"
          let startd := (tryParseDate f3).getD todayD
          let lastd := (tryParseDate f4).getD startd
          let nk := normalizeKey display
          let ie : InterestEntry :=
            { categoryNormalized := nk, ratePct := rate, monthly := monthly,
              startDate := startd, lastAppliedDate := lastd }
          { st with acc := { st.acc with
              interestMap := aset st.acc.interestMap nk ie
              displayNames := ensureDisplay st.acc.displayNames nk display } }
      | _ => st
    | .Alloc =>
      match splitEscaped line with
      | display :: f1 :: _ =>
        match parseNum f1 with
        | none => st
        | some v =>
          let nk := normalizeKey display
          { st with acc := { st.acc with
              allocationPct := aset st.acc.allocationPct nk v
              displayNames := ensureDisplay st.acc.displayNames nk display } }
      | _ => st
    | .Cats =>
      match splitEscaped line with
      | display :: f1 :: _ =>
        match parseNum f1 with
        | none => st
        | some v =>
          let nk := normalizeKey display
          { st with acc := { st.acc with
              categoryBalances := aset st.acc.categoryBalances nk v
              displayNames := ensureDisplay st.acc.displayNames nk display } }
      | _ => st
    | .Scheds =>
      match splitEscaped line with
      | f0 :: f1 :: f2 :: f3 :: f4 :: f5 :: f6 :: _ =>
        let ty : ScheduleType := if f0 = "E" then .EveryXDays else .MonthlyDay
        match parseInt f1 with
        | none => st
        | some param =>
          match parseNum f2 with
          | none => st
          | some amount =>
            match tryParseDate f4 with
            | none => st
            | some nd =>
              let s : Schedule :=
                { type := ty, param := param, amount := amount, note := f6,
                  autoAllocate := f3 = "1" ∨ f3 = "true", nextDate := nd,
                  category := f5 }
              if schedValid s then
                { st with acc :=
                    { st.acc with schedules := st.acc.schedules ++ [s] } }
              else st
      | _ => st
    | .Txs =>
      match splitEscaped line with
      | f0 :: f1 :: f2 :: f3 :: _ =>
        match tryParseDate f0 with
        | none => st
        | some dt =>
          match parseNum f1 with
          | none => st
          | some amount =>
            let t : Transaction :=
              { date := dt, amount := amount, category := f2, note := f3 }
            let nk := normalizeKey f2
            { st with acc := { st.acc with
                txs := st.acc.txs ++ [t]
                displayNames := ensureDisplay st.acc.displayNames nk f2 } }
      | _ => st

/-- The recomputation of category balances from the loaded transactions
(lines 844-851), also backfilling display names. -/
def recomputeCatsStep (st : AMap ℚ × AMap String) (t : Transaction) :
    AMap ℚ × AMap String :=
  let nk := normalizeKey t.category
  (aadd st.1 nk t.amount, ensureDisplay st.2 nk t.category)

/-- Keeping the stored balance of categories with no transactions
(lines 852-855). -/
def mergeCats (recomputed oldCb : AMap ℚ) : AMap ℚ :=
  oldCb.foldl
    (fun rc p => if acontains rc p.1 then rc else aset rc p.1 p.2) recomputed

/-- The final pass over `allocationPct` (lines 857-860). -/
def ensureAllocStep (st : AMap String × AMap ℚ) (p : String × ℚ) :
    AMap String × AMap ℚ :=
  (ensureDisplay st.1 p.1 p.1,
   if acontains st.2 p.1 then st.2 else aset st.2 p.1 0)

/-- The body of `Account::loadFromFile` once a stream is open
(lines 718-877): clear the collections, reset the settings, run the line
loop, recompute category balances and reconcile the total balance. -/
def parseStore (acc : Account) (lines : List String) (todayD : Date) :
    Account :=
  let cleared := { acc with
    allocationPct := ([] : AMap ℚ), categoryBalances := ([] : AMap ℚ),
    schedules := ([] : List Schedule), txs := ([] : List Transaction),
    displayNames := ([] : AMap String),
    interestMap := ([] : AMap InterestEntry),
    settings := ({} : Settings) }
  let st0 : LoadState :=
    { sec := .NoneSec, savedBalance := 0, hadSavedBalance := false,
      acc := cleared }
  let st := lines.foldl (processLine todayD) st0
  let acc1 := st.acc
  let rc := acc1.txs.foldl recomputeCatsStep (([] : AMap ℚ), acc1.displayNames)
  let cb1 := mergeCats rc.1 acc1.categoryBalances
  let ec := acc1.allocationPct.foldl ensureAllocStep (rc.2, cb1)
  let computedBalance := (acc1.txs.map (·.amount)).sum
  let bal :=
    if computedBalance = 0 ∧ st.hadSavedBalance then st.savedBalance
    else computedBalance
  { acc1 with displayNames := ec.1, categoryBalances := ec.2, balance := bal }

/-- `Account::loadFromFile` (lines 704-878).  `primary` is the open result
of the store path, `legacy` that of the working-directory fallback: `none`
models a stream that could not be opened.  All clearing happens inside
`parseStore`, i.e. only after one of the two opens succeeded. -/
def loadFromFile (acc : Account) (primary legacy : Option (List String))
    (todayD : Date) : Bool × Account :=
  match primary with
  | some ls => (true, parseStore acc ls todayD)
  | none =>
    match legacy with
    | some ls => (true, parseStore acc ls todayD)
    | none => (false, acc)

/-! ## Section 7: concrete scenario data and invariant definitions -/

/-- The store file of the balance-reconciliation scenario: a stored total
of 42 and two transactions whose amounts cancel. -/
def c2Lines : List String :=
  ["BALANCE 42", "TXS", "2024-01-01|5|Other|a", "2024-01-02|-5|Other|b"]

/-- The interest scenario account: a fresh account with one manual
transaction `{2024-01-01, +100, "Other", "Initial income"}` and a single
monthly 1% interest rule on `Other` anchored at `2024-01-01`. -/
def c3Account : Account :=
  { addManualTransaction defaultAccount ⟨2024, 1, 1⟩ 100 "Other"
      "Initial income" with
    interestMap :=
      [("other",
        { categoryNormalized := "other", ratePct := 1, monthly := true,
          startDate := ⟨2024, 1, 1⟩, lastAppliedDate := ⟨2024, 1, 1⟩ })] }

/-- The `MonthlyDay param=31` schedule of the clamping scenario, directly
posting a valid amount, first due `2024-01-31`. -/
def c5Schedule : Schedule :=
  { type := .MonthlyDay, param := 31, amount := 50, note := "rent",
    autoAllocate := false, nextDate := ⟨2024, 1, 31⟩, category := "Other" }

/-- A fresh account holding only the clamping-scenario schedule. -/
def c5Account : Account :=
  { defaultAccount with schedules := [c5Schedule] }

/-- The schedule state reached after the first firing: `nextDate` clamped
to `2024-02-29`, which `nextMonthlyOn` maps to itself. -/
def c5Stuck : Schedule :=
  { c5Schedule with nextDate := ⟨2024, 2, 29⟩ }

/-- The derived-balance invariant: the total balance equals the sum of all
transaction-log amounts. -/
def balancedA (acc : Account) : Prop :=
  acc.balance = (acc.txs.map (·.amount)).sum

/-- The same invariant on the state threaded through interest
application (total balance vs. the real transaction log). -/
def balancedSt (st : InterestState) : Prop :=
  st.2.2.2 = (st.1.map (·.amount)).sum

/-- The specification's full three-way category invariant, stated from its
words: every key present in any one of the three maps has an entry
(possibly zero/empty) in the other two. -/
def threeWayInvariant (acc : Account) : Bool :=
  (acc.allocationPct.all fun p =>
    acontains acc.displayNames p.1 && acontains acc.categoryBalances p.1) &&
  (acc.displayNames.all fun p =>
    acontains acc.allocationPct p.1 && acontains acc.categoryBalances p.1) &&
  (acc.categoryBalances.all fun p =>
    acontains acc.allocationPct p.1 && acontains acc.displayNames p.1)

/-- Every allocation key has entries in the given display-name and
category-balance maps. -/
def coveredIn (alloc : AMap ℚ) (dn : AMap String) (cb : AMap ℚ) : Bool :=
  alloc.all fun p => acontains dn p.1 && acontains cb p.1

/-- Every key of `allocationPct` has an entry (possibly zero/empty) in
`displayNames` and `categoryBalances`. -/
def allocCovered (acc : Account) : Bool :=
  coveredIn acc.allocationPct acc.displayNames acc.categoryBalances

/-! ## Section 8: helper lemmas -/

theorem addManualTransaction_txs_length (acc : Account) (d : Date) (a : ℚ)
    (c n : String) :
    (addManualTransaction acc d a c n).txs.length = acc.txs.length + 1 := by
  simp [addManualTransaction]

theorem addManualTransaction_txs_dates (acc : Account) (d : Date) (a : ℚ)
    (c n : String) :
    (addManualTransaction acc d a c n).txs.map (·.date)
      = acc.txs.map (·.date) ++ [d] := by
  simp [addManualTransaction]

/-- Once a schedule's advance function fixes its `nextDate` at a value that
is still due, every remaining guard iteration fires once more without
moving the schedule: the loop only ends at the guard. -/
theorem schedLoop_stuck (upTo : Date) (s : Schedule)
    (hle : Date.leb s.nextDate upTo = true)
    (hadv : schedAdvance s = s.nextDate)
    (hauto : s.autoAllocate = false) :
    ∀ (fuel : Nat) (acc : Account),
      (schedLoop upTo fuel s acc).1 = s ∧
      (schedLoop upTo fuel s acc).2.txs.length = acc.txs.length + fuel ∧
      (schedLoop upTo fuel s acc).2.txs.map (·.date)
        = acc.txs.map (·.date) ++ List.replicate fuel s.nextDate := by
  intro fuel
  induction fuel with
  | zero => intro acc; exact ⟨rfl, rfl, by simp [schedLoop]⟩
  | succ n ih =>
    intro acc
    have hs : { s with nextDate := schedAdvance s } = s := by rw [hadv]
    have hnofire : ¬ (s.autoAllocate = true ∧ 0 < s.amount) := by simp [hauto]
    have hfire : (schedFire acc s).txs.length = acc.txs.length + 1 := by
      rw [schedFire, if_neg hnofire]
      exact addManualTransaction_txs_length ..
    have hdates : (schedFire acc s).txs.map (·.date)
        = acc.txs.map (·.date) ++ [s.nextDate] := by
      rw [schedFire, if_neg hnofire]
      exact addManualTransaction_txs_dates ..
    rw [schedLoop, if_pos hle, hs]
    obtain ⟨h1, h2, h3⟩ := ih (schedFire acc s)
    refine ⟨h1, by rw [h2, hfire]; omega, ?_⟩
    rw [h3, hdates, List.append_assoc]
    rw [show ([s.nextDate] ++ List.replicate n s.nextDate)
      = List.replicate (n + 1) s.nextDate from rfl]

/-- The split loop posts one transaction per allocation entry, of amount
`amount * (pct / totalPct)`, appended in order to the log. -/
theorem allocFold_txs_amounts (date : Date) (amount : ℚ) (note : String)
    (T : ℚ) :
    ∀ (l : AMap ℚ) (st : Account),
      ((l.foldl (allocStep date amount note T) st).txs.map (·.amount)) =
        st.txs.map (·.amount) ++ l.map (fun p => amount * (p.2 / T)) := by
  intro l
  induction l with
  | nil => intro st; simp
  | cons p rest ih =>
    intro st
    rw [List.foldl_cons, ih]
    simp [allocStep, List.append_assoc]

theorem sum_map_share (amount T : ℚ) : ∀ (l : AMap ℚ),
    (l.map (fun p => amount * (p.2 / T))).sum
      = amount / T * (l.map (·.2)).sum := by
  intro l
  induction l with
  | nil => simp
  | cons p rest ih => simp [ih]; ring

theorem balancedA_addManual (acc : Account) (d : Date) (a : ℚ) (c n : String)
    (h : balancedA acc) : balancedA (addManualTransaction acc d a c n) := by
  simp only [balancedA, addManualTransaction] at *
  simp [h]

theorem balancedA_allocFold (date : Date) (amount : ℚ) (note : String)
    (T : ℚ) : ∀ (l : AMap ℚ) (st : Account), balancedA st →
      balancedA (l.foldl (allocStep date amount note T) st) := by
  intro l
  induction l with
  | nil => intro st h; exact h
  | cons p rest ih =>
    intro st h
    rw [List.foldl_cons]
    refine ih _ ?_
    simp only [balancedA, allocStep] at *
    simp [h]

theorem balancedA_allocate (acc : Account) (d : Date) (a : ℚ) (n : String)
    (h : balancedA acc) : balancedA (allocateAmount acc d a n) := by
  rw [allocateAmount]
  split
  · simp only [balancedA] at *
    simp [h]
  · exact balancedA_allocFold _ _ _ _ _ _ h

theorem balancedA_schedFire (acc : Account) (s : Schedule)
    (h : balancedA acc) : balancedA (schedFire acc s) := by
  rw [schedFire]
  split
  · exact balancedA_allocate _ _ _ _ h
  · exact balancedA_addManual _ _ _ _ _ h

theorem balancedA_schedLoop (upTo : Date) :
    ∀ (fuel : Nat) (s : Schedule) (acc : Account), balancedA acc →
      balancedA (schedLoop upTo fuel s acc).2 := by
  intro fuel
  induction fuel with
  | zero => intro s acc h; exact h
  | succ m ih =>
    intro s acc h
    rw [schedLoop]
    split
    · exact ih _ _ (balancedA_schedFire _ _ h)
    · exact h

theorem balancedA_schedFold (upTo : Date) :
    ∀ (ss : List Schedule) (lst : List Schedule) (acc : Account),
      balancedA acc →
      balancedA ((ss.foldl (schedStep upTo) (lst, acc)).2) := by
  intro ss
  induction ss with
  | nil => intro lst acc h; exact h
  | cons s rest ih =>
    intro lst acc h
    rw [List.foldl_cons, schedStep]
    split
    · exact ih _ _ (balancedA_schedLoop upTo 10000 s acc h)
    · exact ih _ _ h

theorem balancedA_processSchedules (acc : Account) (d : Date)
    (h : balancedA acc) : balancedA (processSchedulesUpTo acc d) :=
  balancedA_schedFold d acc.schedules [] acc h

theorem balancedSt_monthStep (dn : AMap String) (f : Date) (r : ℚ)
    (nk note : String) (st : InterestState) (m : Nat)
    (h : balancedSt st) : balancedSt (interestMonthStep dn f r nk note st m) := by
  obtain ⟨txs, wtxs, cb, bal⟩ := st
  simp only [interestMonthStep]
  split
  · exact h
  · split
    · exact h
    · simp only [balancedSt] at *
      simp [h]

theorem balancedSt_monthFold (dn : AMap String) (f : Date) (r : ℚ)
    (nk note : String) : ∀ (ms : List Nat) (st : InterestState),
      balancedSt st →
      balancedSt (ms.foldl (interestMonthStep dn f r nk note) st) := by
  intro ms
  induction ms with
  | nil => intro st h; exact h
  | cons m rest ih =>
    intro st h
    rw [List.foldl_cons]
    exact ih _ (balancedSt_monthStep _ _ _ _ _ _ _ h)

theorem balancedSt_ruleStep (dn : AMap String) (upTo : Date)
    (st : InterestState) (ie : InterestEntry) (h : balancedSt st) :
    balancedSt (interestRuleStep dn upTo st ie).1 := by
  rw [interestRuleStep]
  split
  · exact h
  · split <;> (dsimp only; split) <;>
      first
        | exact h
        | exact balancedSt_monthFold _ _ _ _ _ _ _ h

theorem balancedSt_rulesLoop (dn : AMap String) (upTo : Date) :
    ∀ (rules : AMap InterestEntry) (st : InterestState), balancedSt st →
      balancedSt (interestRulesLoop dn upTo rules st).2 := by
  intro rules
  induction rules with
  | nil => intro st h; exact h
  | cons kv rest ih =>
    intro st h
    obtain ⟨k, ie⟩ := kv
    rw [interestRulesLoop]
    exact ih _ (balancedSt_ruleStep dn upTo st ie h)

theorem balancedA_applyInterest (acc : Account) (d : Date)
    (h : balancedA acc) : balancedA (applyInterestUpTo acc d) := by
  rw [applyInterestUpTo]
  split
  · exact h
  · exact balancedSt_rulesLoop acc.displayNames d acc.interestMap
      (acc.txs, acc.txs, acc.categoryBalances, acc.balance) h

theorem acontains_aset_self {α : Type} :
    ∀ (m : AMap α) (k : String) (v : α), acontains (aset m k v) k = true := by
  intro m
  induction m with
  | nil => intro k v; simp [aset, acontains, alookup]
  | cons q rest ih =>
    intro k v
    obtain ⟨a, b⟩ := q
    by_cases h : a = k
    · simp [aset, h, acontains, alookup]
    · simp only [aset, if_neg h, acontains, alookup]
      exact ih k v

theorem acontains_aset_of {α : Type} :
    ∀ (m : AMap α) (k : String) (v : α) (k' : String),
      acontains m k' = true → acontains (aset m k v) k' = true := by
  intro m
  induction m with
  | nil => intro k v k' h; simp [acontains, alookup] at h
  | cons q rest ih =>
    intro k v k' h
    obtain ⟨a, b⟩ := q
    by_cases h1 : a = k
    · subst h1
      by_cases h2 : a = k' <;>
        simp_all [aset, acontains, alookup]
    · simp only [aset, if_neg h1]
      by_cases h2 : a = k' <;>
        simp_all [acontains, alookup, ih k v k']

theorem acontains_aadd_self (m : AMap ℚ) (k : String) (x : ℚ) :
    acontains (aadd m k x) k = true :=
  acontains_aset_self m k _

theorem acontains_aadd_of (m : AMap ℚ) (k : String) (x : ℚ) (k' : String)
    (h : acontains m k' = true) : acontains (aadd m k x) k' = true :=
  acontains_aset_of m k _ k' h

theorem acontains_atouch_of (m : AMap String) (k k' : String)
    (h : acontains m k' = true) : acontains (atouch m k) k' = true := by
  rw [atouch]
  split
  · exact h
  · exact acontains_aset_of m k _ k' h

theorem acontains_ensureDisplay_of (m : AMap String) (k v k' : String)
    (h : acontains m k' = true) :
    acontains (ensureDisplay m k v) k' = true := by
  rw [ensureDisplay]
  split
  · exact h
  · exact acontains_aset_of m k v k' h

theorem acontains_ensureDisplay_self (m : AMap String) (k v : String) :
    acontains (ensureDisplay m k v) k = true := by
  rw [ensureDisplay]
  split
  · assumption
  · exact acontains_aset_self m k v

theorem mem_aset {α : Type} :
    ∀ (m : AMap α) (k : String) (v : α) (p : String × α),
      p ∈ aset m k v → p.1 = k ∨ p ∈ m := by
  intro m
  induction m with
  | nil =>
    intro k v p hp
    simp [aset] at hp
    subst hp
    exact Or.inl rfl
  | cons q rest ih =>
    intro k v p hp
    obtain ⟨a, b⟩ := q
    by_cases h1 : a = k
    · subst h1
      simp only [aset, if_pos rfl] at hp
      rcases List.mem_cons.mp hp with hp | hp
      · exact Or.inl (by rw [hp])
      · exact Or.inr (List.mem_cons_of_mem _ hp)
    · simp only [aset, if_neg h1] at hp
      rcases List.mem_cons.mp hp with hp | hp
      · exact Or.inr (by simp [hp])
      · rcases ih k v p hp with h | h
        · exact Or.inl h
        · exact Or.inr (List.mem_cons_of_mem _ h)

theorem coveredIn_mono {alloc : AMap ℚ} {dn dn' : AMap String}
    {cb cb' : AMap ℚ}
    (hdn : ∀ k, acontains dn k = true → acontains dn' k = true)
    (hcb : ∀ k, acontains cb k = true → acontains cb' k = true)
    (h : coveredIn alloc dn cb = true) : coveredIn alloc dn' cb' = true := by
  simp only [coveredIn, List.all_eq_true] at *
  intro p hp
  have hpp := h p hp
  rw [Bool.and_eq_true] at hpp ⊢
  exact ⟨hdn _ hpp.1, hcb _ hpp.2⟩

theorem coveredIn_aset {alloc : AMap ℚ} {dn : AMap String} {cb : AMap ℚ}
    {k : String} (v : ℚ) (h : coveredIn alloc dn cb = true)
    (h1 : acontains dn k = true) (h2 : acontains cb k = true) :
    coveredIn (aset alloc k v) dn cb = true := by
  simp only [coveredIn, List.all_eq_true] at *
  intro p hp
  rw [Bool.and_eq_true]
  rcases mem_aset alloc k v p hp with hk | hk
  · rw [hk]; exact ⟨h1, h2⟩
  · have hpp := h p hk
    rw [Bool.and_eq_true] at hpp
    exact hpp

theorem acontains_ite_aset_of {α : Type} (m : AMap α) (c : Prop)
    [Decidable c] (k' : String) (v : α) (k : String)
    (h : acontains m k = true) :
    acontains (if c then m else aset m k' v) k = true := by
  split
  · exact h
  · exact acontains_aset_of _ _ _ _ h

theorem covered_addManual (acc : Account) (d : Date) (a : ℚ) (c n : String)
    (h : allocCovered acc = true) :
    allocCovered (addManualTransaction acc d a c n) = true := by
  rw [allocCovered] at h ⊢
  simp only [addManualTransaction]
  refine coveredIn_mono ?_ ?_ h
  · intro k hk
    exact acontains_ite_aset_of _ _ _ _ k hk
  · intro k hk
    exact acontains_aadd_of _ _ _ _ hk

theorem coveredIn_ensureTriple (alloc : AMap ℚ) (dn : AMap String)
    (cb : AMap ℚ) (nk dv : String) (h : coveredIn alloc dn cb = true) :
    coveredIn (if acontains alloc nk then alloc else aset alloc nk 0)
      (if acontains dn nk then dn else aset dn nk dv)
      (if acontains cb nk then cb else aset cb nk 0) = true := by
  have hdnm : ∀ k, acontains dn k = true →
      acontains (if acontains dn nk then dn else aset dn nk dv) k = true := by
    intro k hk
    split
    · exact hk
    · exact acontains_aset_of _ _ _ _ hk
  have hcbm : ∀ k, acontains cb k = true →
      acontains (if acontains cb nk then cb else aset cb nk 0) k = true := by
    intro k hk
    split
    · exact hk
    · exact acontains_aset_of _ _ _ _ hk
  have hdns : acontains (if acontains dn nk then dn else aset dn nk dv) nk
      = true := by
    split
    · assumption
    · exact acontains_aset_self _ _ _
  have hcbs : acontains (if acontains cb nk then cb else aset cb nk 0) nk
      = true := by
    split
    · assumption
    · exact acontains_aset_self _ _ _
  split
  · exact coveredIn_mono hdnm hcbm h
  · exact coveredIn_aset 0 (coveredIn_mono hdnm hcbm h) hdns hcbs

theorem covered_ensureCategory (acc : Account) (disp : String)
    (h : allocCovered acc = true) :
    allocCovered (ensureCategoryExists acc disp) = true := by
  rw [allocCovered] at h ⊢
  simp only [ensureCategoryExists]
  exact coveredIn_ensureTriple _ _ _ _ _ h

theorem covered_setAllocationStep (st : Account) (p : String × ℚ)
    (h : allocCovered st = true) :
    allocCovered (setAllocationStep st p) = true := by
  rw [allocCovered] at h ⊢
  simp only [setAllocationStep]
  have hdnm : ∀ k, acontains st.displayNames k = true →
      acontains (if acontains st.displayNames (normalizeKey
          (sanitizeDisplayName p.1)) then st.displayNames
        else aset st.displayNames (normalizeKey (sanitizeDisplayName p.1))
          (sanitizeDisplayName p.1)) k = true := by
    intro k hk
    split
    · exact hk
    · exact acontains_aset_of _ _ _ _ hk
  have hcbm : ∀ k, acontains st.categoryBalances k = true →
      acontains (if acontains st.categoryBalances (normalizeKey
          (sanitizeDisplayName p.1)) then st.categoryBalances
        else aset st.categoryBalances
          (normalizeKey (sanitizeDisplayName p.1)) 0) k = true := by
    intro k hk
    split
    · exact hk
    · exact acontains_aset_of _ _ _ _ hk
  refine coveredIn_aset _ (coveredIn_mono hdnm hcbm h) ?_ ?_
  · split
    · assumption
    · exact acontains_aset_self _ _ _
  · split
    · assumption
    · exact acontains_aset_self _ _ _

theorem covered_setAllocationFold :
    ∀ (l : AMap ℚ) (st : Account), allocCovered st = true →
      allocCovered (l.foldl setAllocationStep st) = true := by
  intro l
  induction l with
  | nil => intro st h; exact h
  | cons p rest ih =>
    intro st h
    rw [List.foldl_cons]
    exact ih _ (covered_setAllocationStep st p h)

theorem covered_setAllocation (acc : Account) (na : AMap ℚ) :
    allocCovered (setAllocation acc na) = true := by
  rw [setAllocation]
  exact covered_setAllocationFold na _ (by rw [allocCovered]; rfl)

theorem allocFold_alloc_eq (d : Date) (a : ℚ) (n : String) (T : ℚ) :
    ∀ (l : AMap ℚ) (st : Account),
      (l.foldl (allocStep d a n T) st).allocationPct = st.allocationPct := by
  intro l
  induction l with
  | nil => intro st; rfl
  | cons p rest ih =>
    intro st
    rw [List.foldl_cons, ih]
    simp [allocStep]

theorem allocFold_dn_of (d : Date) (a : ℚ) (n : String) (T : ℚ) :
    ∀ (l : AMap ℚ) (st : Account) (k : String),
      acontains st.displayNames k = true →
      acontains (l.foldl (allocStep d a n T) st).displayNames k = true := by
  intro l
  induction l with
  | nil => intro st k hk; exact hk
  | cons p rest ih =>
    intro st k hk
    rw [List.foldl_cons]
    exact ih _ k (acontains_atouch_of _ _ _ hk)

theorem allocFold_cb_of (d : Date) (a : ℚ) (n : String) (T : ℚ) :
    ∀ (l : AMap ℚ) (st : Account) (k : String),
      acontains st.categoryBalances k = true →
      acontains (l.foldl (allocStep d a n T) st).categoryBalances k
        = true := by
  intro l
  induction l with
  | nil => intro st k hk; exact hk
  | cons p rest ih =>
    intro st k hk
    rw [List.foldl_cons]
    exact ih _ k (acontains_aadd_of _ _ _ _ hk)

theorem covered_allocate (acc : Account) (d : Date) (a : ℚ) (n : String)
    (h : allocCovered acc = true) :
    allocCovered (allocateAmount acc d a n) = true := by
  rw [allocCovered] at h
  rw [allocateAmount]
  split
  · rw [allocCovered]
    simp only
    refine coveredIn_mono ?_ ?_ h
    · intro k hk
      split
      · exact hk
      · exact acontains_aset_of _ _ _ _ hk
    · intro k hk
      exact acontains_aadd_of _ _ _ _ hk
  · rw [allocCovered, allocFold_alloc_eq]
    exact coveredIn_mono (fun k => allocFold_dn_of d a n _ _ acc k)
      (fun k => allocFold_cb_of d a n _ _ acc k) h

theorem covered_schedFire (acc : Account) (s : Schedule)
    (h : allocCovered acc = true) : allocCovered (schedFire acc s) = true := by
  rw [schedFire]
  split
  · exact covered_allocate _ _ _ _ h
  · exact covered_addManual _ _ _ _ _ h

theorem covered_schedLoop (upTo : Date) :
    ∀ (fuel : Nat) (s : Schedule) (acc : Account), allocCovered acc = true →
      allocCovered (schedLoop upTo fuel s acc).2 = true := by
  intro fuel
  induction fuel with
  | zero => intro s acc h; exact h
  | succ m ih =>
    intro s acc h
    rw [schedLoop]
    split
    · exact ih _ _ (covered_schedFire _ _ h)
    · exact h

theorem covered_schedFold (upTo : Date) :
    ∀ (ss : List Schedule) (lst : List Schedule) (acc : Account),
      allocCovered acc = true →
      allocCovered ((ss.foldl (schedStep upTo) (lst, acc)).2) = true := by
  intro ss
  induction ss with
  | nil => intro lst acc h; exact h
  | cons s rest ih =>
    intro lst acc h
    rw [List.foldl_cons, schedStep]
    split
    · exact ih _ _ (covered_schedLoop upTo 10000 s acc h)
    · exact ih _ _ h

theorem covered_processSchedules (acc : Account) (d : Date)
    (h : allocCovered acc = true) :
    allocCovered (processSchedulesUpTo acc d) = true :=
  covered_schedFold d acc.schedules [] acc h

theorem monthStep_cb_of (dn : AMap String) (f : Date) (r : ℚ)
    (nk note : String) (st : InterestState) (m : Nat) (k : String)
    (h : acontains st.2.2.1 k = true) :
    acontains (interestMonthStep dn f r nk note st m).2.2.1 k = true := by
  obtain ⟨txs, wtxs, cb, bal⟩ := st
  simp only [interestMonthStep]
  split
  · exact h
  · split
    · exact h
    · exact acontains_aadd_of _ _ _ _ h

theorem monthFold_cb_of (dn : AMap String) (f : Date) (r : ℚ)
    (nk note : String) :
    ∀ (ms : List Nat) (st : InterestState) (k : String),
      acontains st.2.2.1 k = true →
      acontains ((ms.foldl (interestMonthStep dn f r nk note) st)).2.2.1 k
        = true := by
  intro ms
  induction ms with
  | nil => intro st k h; exact h
  | cons m rest ih =>
    intro st k h
    rw [List.foldl_cons]
    exact ih _ k (monthStep_cb_of dn f r nk note st m k h)

theorem ruleStep_cb_of (dn : AMap String) (upTo : Date) (st : InterestState)
    (ie : InterestEntry) (k : String) (h : acontains st.2.2.1 k = true) :
    acontains (interestRuleStep dn upTo st ie).1.2.2.1 k = true := by
  rw [interestRuleStep]
  split
  · exact h
  · split <;> (dsimp only; split) <;>
      first
        | exact h
        | exact monthFold_cb_of _ _ _ _ _ _ _ _ h

theorem rulesLoop_cb_of (dn : AMap String) (upTo : Date) :
    ∀ (rules : AMap InterestEntry) (st : InterestState) (k : String),
      acontains st.2.2.1 k = true →
      acontains (interestRulesLoop dn upTo rules st).2.2.2.1 k = true := by
  intro rules
  induction rules with
  | nil => intro st k h; exact h
  | cons kv rest ih =>
    intro st k h
    obtain ⟨kk, ie⟩ := kv
    rw [interestRulesLoop]
    exact ih _ k (ruleStep_cb_of dn upTo st ie k h)

theorem covered_applyInterest (acc : Account) (d : Date)
    (h : allocCovered acc = true) :
    allocCovered (applyInterestUpTo acc d) = true := by
  rw [allocCovered] at h
  rw [applyInterestUpTo]
  split
  · exact h
  · rw [allocCovered]
    exact coveredIn_mono (fun k hk => hk)
      (fun k => rulesLoop_cb_of acc.displayNames d acc.interestMap
        (acc.txs, acc.txs, acc.categoryBalances, acc.balance) k) h

theorem ensureAllocStep_dn_of (st : AMap String × AMap ℚ) (p : String × ℚ)
    (k : String) (h : acontains st.1 k = true) :
    acontains (ensureAllocStep st p).1 k = true := by
  rw [ensureAllocStep]
  exact acontains_ensureDisplay_of _ _ _ _ h

theorem ensureAllocStep_cb_of (st : AMap String × AMap ℚ) (p : String × ℚ)
    (k : String) (h : acontains st.2 k = true) :
    acontains (ensureAllocStep st p).2 k = true := by
  rw [ensureAllocStep]
  simp only
  split
  · exact h
  · exact acontains_aset_of _ _ _ _ h

theorem ensureAllocFold_dn_of :
    ∀ (l : AMap ℚ) (st : AMap String × AMap ℚ) (k : String),
      acontains st.1 k = true →
      acontains (l.foldl ensureAllocStep st).1 k = true := by
  intro l
  induction l with
  | nil => intro st k h; exact h
  | cons p rest ih =>
    intro st k h
    rw [List.foldl_cons]
    exact ih _ k (ensureAllocStep_dn_of st p k h)

theorem ensureAllocFold_cb_of :
    ∀ (l : AMap ℚ) (st : AMap String × AMap ℚ) (k : String),
      acontains st.2 k = true →
      acontains (l.foldl ensureAllocStep st).2 k = true := by
  intro l
  induction l with
  | nil => intro st k h; exact h
  | cons p rest ih =>
    intro st k h
    rw [List.foldl_cons]
    exact ih _ k (ensureAllocStep_cb_of st p k h)

theorem ensureAllocFold_covers :
    ∀ (l : AMap ℚ) (st : AMap String × AMap ℚ) (p : String × ℚ), p ∈ l →
      acontains (l.foldl ensureAllocStep st).1 p.1 = true ∧
      acontains (l.foldl ensureAllocStep st).2 p.1 = true := by
  intro l
  induction l with
  | nil => intro st p hp; simp at hp
  | cons q rest ih =>
    intro st p hp
    rw [List.foldl_cons]
    rcases List.mem_cons.mp hp with hp | hp
    · subst hp
      constructor
      · refine ensureAllocFold_dn_of rest _ p.1 ?_
        rw [ensureAllocStep]
        exact acontains_ensureDisplay_self _ _ _
      · refine ensureAllocFold_cb_of rest _ p.1 ?_
        rw [ensureAllocStep]
        simp only
        split
        · assumption
        · exact acontains_aset_self _ _ _
    · exact ih _ p hp

theorem coveredIn_ensureFold (A : AMap ℚ) (S : AMap String × AMap ℚ) :
    coveredIn A (A.foldl ensureAllocStep S).1 (A.foldl ensureAllocStep S).2
      = true := by
  simp only [coveredIn, List.all_eq_true]
  intro p hp
  rw [Bool.and_eq_true]
  exact ensureAllocFold_covers A S p hp

theorem covered_parseStore (acc : Account) (lines : List String)
    (todayD : Date) : allocCovered (parseStore acc lines todayD) = true := by
  rw [allocCovered]
  exact coveredIn_ensureFold _ _

theorem covered_loadFromFile (acc : Account)
    (primary legacy : Option (List String)) (todayD : Date)
    (h : allocCovered acc = true) :
    allocCovered (loadFromFile acc primary legacy todayD).2 = true := by
  cases primary with
  | some ls => exact covered_parseStore acc ls todayD
  | none =>
    cases legacy with
    | some ls => exact covered_parseStore acc ls todayD
    | none => exact h

/-! ## Section 9: the claims -/

/-- Claim C1.  The specified field round-trip law
`splitEscaped (joinEscaped fields) = fields` fails on the code: because
`splitEscaped` already consumes escape sequences during its scan and then
runs `unescapeLoaded` over each part a second time, a field containing a
backslash loses it, and a field containing a newline gets a literal `n`
instead.  Evaluated here at the failing inputs `["a\b"]` and `["x\ny"]`
(and an in-range case with the delimiter, which does survive). -/
theorem c1_roundtrip_fails_on_backslash_and_newline :
    splitEscaped (joinEscaped ["a\\b"]) = ["ab"] ∧
    splitEscaped (joinEscaped ["a\\b"]) ≠ ["a\\b"] ∧
    splitEscaped (joinEscaped ["x\ny"]) = ["xny"] ∧
    splitEscaped (joinEscaped ["x\ny"]) ≠ ["x\ny"] ∧
    splitEscaped (joinEscaped ["a|b", "c"]) = ["a|b", "c"] := by
  refine ⟨rfl, by decide, rfl, by decide, rfl⟩

/-- Claim C2.  Loading a store whose transactions sum to zero: the code
keeps the stale stored `BALANCE 42` because it tests
`!computedBalance` (sum equal to zero) instead of "no transactions were
parsed"; two transactions are parsed, their sum is 0, and the claim says
the resulting balance must then be 0. -/
theorem c2_zero_sum_load_keeps_stored_balance :
    (loadFromFile defaultAccount (some c2Lines) none ⟨2026, 1, 1⟩).1 = true ∧
    (loadFromFile defaultAccount (some c2Lines) none ⟨2026, 1, 1⟩).2.txs.length
      = 2 ∧
    (((loadFromFile defaultAccount (some c2Lines) none
        ⟨2026, 1, 1⟩).2.txs.map (·.amount)).sum) = 0 ∧
    (loadFromFile defaultAccount (some c2Lines) none ⟨2026, 1, 1⟩).2.balance
      = 42 := by
  refine ⟨rfl, ?_, ?_, ?_⟩ <;> decide

/-- Claim C3, counterexample.  On the scenario account the code posts
three interest transactions, not two: the month count starts at
`max(lastAppliedThrough, startDate)` itself (January), not at
`addMonths(..., 1)` (February). -/
theorem c3_counterexample_three_postings :
    (applyInterestUpTo c3Account ⟨2024, 3, 1⟩).txs.length ≠ 1 + 2 ∧
    ((applyInterestUpTo c3Account ⟨2024, 3, 1⟩).txs.map (·.date)).contains
      ⟨2024, 1, 1⟩ = true := by
  refine ⟨?_, ?_⟩ <;> decide

/-- Claim C3, amended.  `applyInterestUpTo (2024-03-01)` posts exactly
three interest transactions, in January, February and March 2024; the
first apply date is `max(lastAppliedThrough, startDate)` itself, the
anchor month, and the first posting is computed on balance 100 with the
later ones on the compounded balances; afterwards the rule's last-applied
date is `2024-03-01`. -/
theorem c3_interest_scenario :
    (applyInterestUpTo c3Account ⟨2024, 3, 1⟩).txs = c3Account.txs ++
      [{ date := ⟨2024, 1, 1⟩, amount := 100 * (1 / 100), category := "Other",
         note := "Interest (monthly)" },
       { date := ⟨2024, 2, 1⟩, amount := 101 / 100, category := "Other",
         note := "Interest (monthly)" },
       { date := ⟨2024, 3, 1⟩, amount := 10201 / 10000, category := "Other",
         note := "Interest (monthly)" }] ∧
    (applyInterestUpTo c3Account ⟨2024, 3, 1⟩).balance = 1030301 / 10000 ∧
    (alookup (applyInterestUpTo c3Account ⟨2024, 3, 1⟩).interestMap
      "other").map (·.lastAppliedDate) = some ⟨2024, 3, 1⟩ := by
  refine ⟨?_, ?_, ?_⟩ <;> decide

/-- Claim C4.  Repeating `applyInterestUpTo` with the same target date is
not idempotent: the first call clamps the rule's last-applied date to the
target, the month count of the second call is then
`monthsBetweenInclusive(target, target) = 1`, and one further interest
transaction is posted for the target month, changing the total balance. -/
theorem c4_reapply_posts_further_interest :
    (applyInterestUpTo (applyInterestUpTo c3Account ⟨2024, 3, 1⟩)
        ⟨2024, 3, 1⟩).txs.length =
      (applyInterestUpTo c3Account ⟨2024, 3, 1⟩).txs.length + 1 ∧
    (applyInterestUpTo (applyInterestUpTo c3Account ⟨2024, 3, 1⟩)
        ⟨2024, 3, 1⟩).balance ≠
      (applyInterestUpTo c3Account ⟨2024, 3, 1⟩).balance := by
  refine ⟨?_, ?_⟩ <;> decide

/-- Claim C6.  `nextMonthlyOn` does not always return a date strictly
greater than `fromDate`: from `2024-02-29` with target day 31, the
current day (29) is less than the target, so the "this month" branch is
taken and the clamp `min 31 29` reproduces `2024-02-29` itself. -/
theorem c6_nextMonthlyOn_can_return_fromDate :
    nextMonthlyOn ⟨2024, 2, 29⟩ 31 = ⟨2024, 2, 29⟩ ∧
    Date.ltb ⟨2024, 2, 29⟩ (nextMonthlyOn ⟨2024, 2, 29⟩ 31) = false := by
  refine ⟨by decide, by decide⟩

/-- Claim C10.  When neither the store file nor the legacy
working-directory fallback can be opened, `loadFromFile` reports failure
and returns the account with every field untouched: all clearing happens
only after a successful open. -/
theorem c10_load_open_failure_leaves_account_unchanged
    (acc : Account) (todayD : Date) :
    loadFromFile acc none none todayD = (false, acc) := rfl

/-- Claim C5.  The `MonthlyDay param=31` schedule starting `2024-01-31`
does not fire 4 times up to `2024-04-30`: after the first firing its
`nextDate` is clamped to `2024-02-29`, which `nextMonthlyOn` maps to
itself, so the loop fires on that same date until the 10000-iteration
guard trips — 10000 transactions in total — and the final `nextOccurrence`
is `2024-02-29`, not a date beyond `2024-04-30`. -/
theorem c5_monthly31_schedule_hits_guard :
    (processSchedulesUpTo c5Account ⟨2024, 4, 30⟩).txs.length = 10000 ∧
    (processSchedulesUpTo c5Account ⟨2024, 4, 30⟩).txs.map (·.date)
      = ⟨2024, 1, 31⟩ :: List.replicate 9999 ⟨2024, 2, 29⟩ ∧
    (processSchedulesUpTo c5Account ⟨2024, 4, 30⟩).schedules.map (·.nextDate)
      = [⟨2024, 2, 29⟩] ∧
    Date.leb ⟨2024, 2, 29⟩ ⟨2024, 4, 30⟩ = true := by
  have hv : schedValid c5Schedule = true := by decide
  have hstep : ({ c5Schedule with nextDate := schedAdvance c5Schedule } :
      Schedule) = c5Stuck := by decide
  have hfire : (schedFire c5Account c5Schedule).txs.length = 1 := by decide
  obtain ⟨hsch, hlen, hdat⟩ := schedLoop_stuck ⟨2024, 4, 30⟩ c5Stuck
    (by decide) (by decide) rfl 9999 (schedFire c5Account c5Schedule)
  have hone : schedLoop ⟨2024, 4, 30⟩ 10000 c5Schedule c5Account
      = schedLoop ⟨2024, 4, 30⟩ 9999 c5Stuck (schedFire c5Account c5Schedule) := by
    rw [show (10000 : Nat) = 9999 + 1 from rfl, schedLoop,
      if_pos (show Date.leb c5Schedule.nextDate ⟨2024, 4, 30⟩ = true by decide),
      hstep]
  rcases hE : schedLoop ⟨2024, 4, 30⟩ 9999 c5Stuck
      (schedFire c5Account c5Schedule) with ⟨sF, accF⟩
  rw [hE] at hone hsch hlen hdat
  simp only at hsch hlen hdat
  have hstep2 : schedStep ⟨2024, 4, 30⟩ ([], c5Account) c5Schedule =
      ([sF], accF) := by
    rw [schedStep, if_pos hv]
    simp only [List.nil_append]
    rw [hone]
  have hfold : c5Account.schedules.foldl (schedStep ⟨2024, 4, 30⟩)
      ([], c5Account) = ([sF], accF) := by
    rw [show c5Account.schedules = [c5Schedule] from rfl, List.foldl_cons,
      List.foldl_nil, hstep2]
  have hproc : processSchedulesUpTo c5Account ⟨2024, 4, 30⟩ =
      { accF with schedules := [sF] } := by
    rw [processSchedulesUpTo, hfold]
  rw [hproc]
  have hfd : (schedFire c5Account c5Schedule).txs.map (·.date)
      = [(⟨2024, 1, 31⟩ : Date)] := by decide
  have hnd : c5Stuck.nextDate = ⟨2024, 2, 29⟩ := rfl
  refine ⟨?_, ?_, ?_, by decide⟩
  · simpa [hfire] using hlen
  · show accF.txs.map (·.date) = _
    rw [hdat, hfd, hnd]
    rfl
  · simp [hsch, c5Stuck]

/-- Claim C7.  For a positive amount and an allocation map whose percents
sum to more than the epsilon threshold `1/1000000`, `allocateAmount` posts
exactly one transaction per allocation entry with amount
`amount * (percent / totalPct)`, and under the exact rational arithmetic of
this model the posted shares sum to exactly the original amount. -/
theorem c7_allocation_conservation (acc : Account) (date : Date) (amount : ℚ)
    (note : String) (hpos : 0 < amount)
    (htot : 1 / 1000000 < totalPctOf acc.allocationPct) :
    ((allocateAmount acc date amount note).txs.map (·.amount) =
      acc.txs.map (·.amount) ++
        acc.allocationPct.map
          (fun p => amount * (p.2 / totalPctOf acc.allocationPct))) ∧
    (allocateAmount acc date amount note).txs.length =
      acc.txs.length + acc.allocationPct.length ∧
    (acc.allocationPct.map
      (fun p => amount * (p.2 / totalPctOf acc.allocationPct))).sum
        = amount := by
  have hT0 : (0 : ℚ) < totalPctOf acc.allocationPct :=
    lt_trans (by norm_num) htot
  have hTne : totalPctOf acc.allocationPct ≠ 0 := ne_of_gt hT0
  have hno : ¬ (totalPctOf acc.allocationPct ≤ 1 / 1000000) := not_le.mpr htot
  have hmain : allocateAmount acc date amount note =
      acc.allocationPct.foldl
        (allocStep date amount note (totalPctOf acc.allocationPct)) acc := by
    rw [allocateAmount, if_neg hno]
  have h1 : (allocateAmount acc date amount note).txs.map (·.amount) =
      acc.txs.map (·.amount) ++
        acc.allocationPct.map
          (fun p => amount * (p.2 / totalPctOf acc.allocationPct)) := by
    rw [hmain]
    exact allocFold_txs_amounts date amount note
      (totalPctOf acc.allocationPct) acc.allocationPct acc
  refine ⟨h1, ?_, ?_⟩
  · have h2 := congrArg List.length h1
    simpa using h2
  · rw [sum_map_share,
      show (acc.allocationPct.map (·.2)).sum = totalPctOf acc.allocationPct
        from rfl,
      div_mul_cancel₀ _ hTne]

/-- Claim C7, witness: the default account's four 20/10/50/20 allocations
of an income of 100. -/
theorem c7_allocation_conservation_witness :
    ((allocateAmount defaultAccount ⟨2024, 1, 1⟩ 100 "pay").txs.map
        (·.amount) =
      defaultAccount.txs.map (·.amount) ++
        defaultAccount.allocationPct.map
          (fun p => 100 * (p.2 / totalPctOf defaultAccount.allocationPct))) ∧
    (allocateAmount defaultAccount ⟨2024, 1, 1⟩ 100 "pay").txs.length =
      defaultAccount.txs.length + defaultAccount.allocationPct.length ∧
    (defaultAccount.allocationPct.map
      (fun p => (100 : ℚ) * (p.2 / totalPctOf defaultAccount.allocationPct))).sum
        = 100 :=
  c7_allocation_conservation defaultAccount ⟨2024, 1, 1⟩ 100 "pay"
    (by norm_num) (by decide)

/-- Claim C9.  From any state in which the total balance equals the sum of
all transaction-log amounts, each of `addManualTransaction`,
`allocateAmount`, `processSchedulesUpTo` and `applyInterestUpTo`
re-establishes that equality: every balance change is accompanied by
appended transactions summing to exactly that change. -/
theorem c9_balance_equals_log_sum :
    (∀ (acc : Account) (d : Date) (a : ℚ) (c n : String),
      balancedA acc → balancedA (addManualTransaction acc d a c n)) ∧
    (∀ (acc : Account) (d : Date) (a : ℚ) (n : String),
      balancedA acc → balancedA (allocateAmount acc d a n)) ∧
    (∀ (acc : Account) (d : Date),
      balancedA acc → balancedA (processSchedulesUpTo acc d)) ∧
    (∀ (acc : Account) (d : Date),
      balancedA acc → balancedA (applyInterestUpTo acc d)) :=
  ⟨balancedA_addManual, balancedA_allocate, balancedA_processSchedules,
    balancedA_applyInterest⟩

/-- Claim C9, witness: the four operations on concrete balanced accounts. -/
theorem c9_balance_equals_log_sum_witness :
    balancedA (addManualTransaction defaultAccount ⟨2024, 1, 1⟩ 5 "Food" "x") ∧
    balancedA (allocateAmount defaultAccount ⟨2024, 1, 1⟩ 100 "pay") ∧
    balancedA (processSchedulesUpTo c5Account ⟨2024, 1, 15⟩) ∧
    balancedA (applyInterestUpTo c3Account ⟨2024, 3, 1⟩) :=
  ⟨c9_balance_equals_log_sum.1 defaultAccount ⟨2024, 1, 1⟩ 5 "Food" "x"
      (by unfold balancedA; decide),
    c9_balance_equals_log_sum.2.1 defaultAccount ⟨2024, 1, 1⟩ 100 "pay"
      (by unfold balancedA; decide),
    c9_balance_equals_log_sum.2.2.1 c5Account ⟨2024, 1, 15⟩
      (by unfold balancedA; decide),
    c9_balance_equals_log_sum.2.2.2 c3Account ⟨2024, 3, 1⟩
      (by unfold balancedA; decide)⟩

/-- Claim C8, counterexample.  The three-way category-map invariant is not
preserved: posting a manual transaction with the fresh category "Food" to
the default account (which does satisfy the three-way invariant) creates
entries in `displayNames` and `categoryBalances` but none in
`allocationPct` — `addManualTransaction` never touches the allocation
map. -/
theorem c8_counterexample_manual_tx_new_category :
    threeWayInvariant defaultAccount = true ∧
    threeWayInvariant (addManualTransaction defaultAccount ⟨2024, 1, 1⟩ 10
      "Food" "x") = false ∧
    acontains (addManualTransaction defaultAccount ⟨2024, 1, 1⟩ 10 "Food"
      "x").displayNames "food" = true ∧
    acontains (addManualTransaction defaultAccount ⟨2024, 1, 1⟩ 10 "Food"
      "x").categoryBalances "food" = true ∧
    acontains (addManualTransaction defaultAccount ⟨2024, 1, 1⟩ 10 "Food"
      "x").allocationPct "food" = false := by
  refine ⟨?_, ?_, ?_, ?_, ?_⟩ <;> decide

/-- Claim C8, amended.  What the operations do preserve is the
one-directional invariant `allocCovered`: every key of `allocationPct` has
an entry (possibly zero/empty) in `displayNames` and `categoryBalances`.
`setAllocation` and a successful load establish it outright; posting,
allocation, schedule processing and interest application preserve it.  A
key present only in `displayNames`/`categoryBalances` need not appear in
`allocationPct` (see the counterexample). -/
theorem c8_alloc_keys_covered :
    (∀ (acc : Account) (d : Date) (a : ℚ) (c n : String),
      allocCovered acc = true →
      allocCovered (addManualTransaction acc d a c n) = true) ∧
    (∀ (acc : Account) (disp : String), allocCovered acc = true →
      allocCovered (ensureCategoryExists acc disp) = true) ∧
    (∀ (acc : Account) (na : AMap ℚ),
      allocCovered (setAllocation acc na) = true) ∧
    (∀ (acc : Account) (d : Date) (a : ℚ) (n : String),
      allocCovered acc = true →
      allocCovered (allocateAmount acc d a n) = true) ∧
    (∀ (acc : Account) (d : Date), allocCovered acc = true →
      allocCovered (processSchedulesUpTo acc d) = true) ∧
    (∀ (acc : Account) (d : Date), allocCovered acc = true →
      allocCovered (applyInterestUpTo acc d) = true) ∧
    (∀ (acc : Account) (lines : List String) (todayD : Date),
      allocCovered (parseStore acc lines todayD) = true) ∧
    (∀ (acc : Account) (primary legacy : Option (List String))
      (todayD : Date), allocCovered acc = true →
      allocCovered (loadFromFile acc primary legacy todayD).2 = true) :=
  ⟨covered_addManual, covered_ensureCategory, covered_setAllocation,
    covered_allocate, covered_processSchedules, covered_applyInterest,
    covered_parseStore, covered_loadFromFile⟩

/-- Claim C8 (amended), witness: concrete applications of the preserved
invariant. -/
theorem c8_alloc_keys_covered_witness :
    allocCovered (addManualTransaction defaultAccount ⟨2024, 1, 1⟩ 10 "Food"
      "x") = true ∧
    allocCovered (applyInterestUpTo c3Account ⟨2024, 3, 1⟩) = true ∧
    allocCovered (loadFromFile defaultAccount (some c2Lines) none
      ⟨2026, 1, 1⟩).2 = true :=
  ⟨c8_alloc_keys_covered.1 defaultAccount ⟨2024, 1, 1⟩ 10 "Food" "x"
      (by decide),
    c8_alloc_keys_covered.2.2.2.2.2.1 c3Account ⟨2024, 3, 1⟩ (by decide),
    c8_alloc_keys_covered.2.2.2.2.2.2.2 defaultAccount (some c2Lines) none
      ⟨2026, 1, 1⟩ (by decide)⟩

end Finance
